import Mathlib

/-!
Verification of the stlgen geometric pipeline.

The development shallowly embeds the three Python modules
(`disk_shadow_stl_generator.py`, `raytrace_verify.py`,
`shadow_stl_generator.py`) of the repository.

Modelling conventions:
* Python floats are idealised as exact rationals (`ℚ`); every arithmetic
  expression of the source is translated verbatim over `ℚ`.
* The floating-point transcendental routines `math.sqrt`, `math.cos`,
  `math.sin` and the constant `math.pi` return ordinary (rational) doubles
  at runtime, so they are modelled as unspecified rational-valued
  parameters (`fsqrt`, `fcos`, `fsin`, `pi_`).  Statements that depend on
  the mathematical behaviour of `sqrt` (the unit-normal property) carry an
  explicit accuracy hypothesis relating `fsqrt` to `Real.sqrt`.
* `struct.pack "<f"` really rounds to IEEE-754 binary32; this is modelled
  bit-precisely by `roundF32` (round to nearest, ties to even) producing
  the 32-bit pattern, and `f32Val` decoding a pattern back to `ℚ`.
* Python exceptions (`ValueError`, `OverflowError`, `ZeroDivisionError`)
  are modelled by `Except GenError`; `math.inf` (the no-hit sentinel of
  the intersector) is modelled by `Option ℚ` with `none` standing for
  `+inf`.
-/

/-- A 3-space point/vector; Python represents it as a 3-tuple of floats
(`Vertex = Tuple[float, float, float]` in `disk_shadow_stl_generator.py`). -/
structure Vec3 where
  x : ℚ
  y : ℚ
  z : ℚ
deriving DecidableEq, Repr

/-- A triangle (`Face = Tuple[Vertex, Vertex, Vertex]`). -/
def Face : Type := Vec3 × Vec3 × Vec3

instance : DecidableEq Face := by unfold Face; infer_instance

/-- Componentwise subtraction (numpy `v - w`). -/
def vsub (a b : Vec3) : Vec3 := ⟨a.x - b.x, a.y - b.y, a.z - b.z⟩

/-- Dot product (`np.dot`). -/
def dot (a b : Vec3) : ℚ := a.x * b.x + a.y * b.y + a.z * b.z

/-- Cross product (`np.cross`). -/
def cross (a b : Vec3) : Vec3 :=
  ⟨a.y * b.z - a.z * b.y, a.z * b.x - a.x * b.z, a.x * b.y - a.y * b.x⟩

/-- Division of a vector by a scalar (numpy `v / c`). -/
def vdiv (a : Vec3) (c : ℚ) : Vec3 := ⟨a.x / c, a.y / c, a.z / c⟩

/-- The epsilon of `ray_triangle_intersect` (`eps = 1e-6`). -/
def rtiEps : ℚ := 1 / 1000000

/-- `ray_triangle_intersect` from `raytrace_verify.py` (Möller–Trumbore).
`none` models the `math.inf` no-hit sentinel. -/
def ray_triangle_intersect (orig dir : Vec3) (tri : Face) : Option ℚ :=
  let v0 := tri.1
  let v1 := tri.2.1
  let v2 := tri.2.2
  let edge1 := vsub v1 v0
  let edge2 := vsub v2 v0
  let h := cross dir edge2
  let a := dot edge1 h
  if -rtiEps < a ∧ a < rtiEps then none
  else
    let f := 1 / a
    let s := vsub orig v0
    let u := f * dot s h
    if u < 0 ∨ u > 1 then none
    else
      let q := cross s edge1
      let v := f * dot dir q
      if v < 0 ∨ u + v > 1 then none
      else
        let t := f * dot edge2 q
        if t > rtiEps then some t else none

/-- The determinant `a = edge1 · (dir × edge2)` of the intersection test. -/
def rti_a (orig dir : Vec3) (tri : Face) : ℚ :=
  dot (vsub tri.2.1 tri.1) (cross dir (vsub tri.2.2 tri.1))

/-- The barycentric coordinate `u = (1/a) · (orig − v0) · h`. -/
def rti_u (orig dir : Vec3) (tri : Face) : ℚ :=
  (1 / rti_a orig dir tri) * dot (vsub orig tri.1) (cross dir (vsub tri.2.2 tri.1))

/-- The barycentric coordinate `v = (1/a) · dir · q`. -/
def rti_v (orig dir : Vec3) (tri : Face) : ℚ :=
  (1 / rti_a orig dir tri) * dot dir (cross (vsub orig tri.1) (vsub tri.2.1 tri.1))

/-- The hit distance `t = (1/a) · edge2 · q`. -/
def rti_t (orig dir : Vec3) (tri : Face) : ℚ :=
  (1 / rti_a orig dir tri) * dot (vsub tri.2.2 tri.1) (cross (vsub orig tri.1) (vsub tri.2.1 tri.1))

/-- C1: `ray_triangle_intersect` returns the no-hit sentinel exactly when
`|a| < eps` (parallel ray), or `u` lies outside `[0,1]`, or `v < 0`, or
`u + v > 1`, or the distance `t = (1/a)·e2·q` is not strictly greater than
`eps`; in every remaining case it returns the finite distance `t`. -/
theorem ray_triangle_intersect_spec (orig dir : Vec3) (tri : Face) :
    ray_triangle_intersect orig dir tri =
      if |rti_a orig dir tri| < rtiEps ∨
          rti_u orig dir tri < 0 ∨ rti_u orig dir tri > 1 ∨
          rti_v orig dir tri < 0 ∨ rti_u orig dir tri + rti_v orig dir tri > 1 ∨
          rti_t orig dir tri ≤ rtiEps
      then none
      else some (rti_t orig dir tri) := by
  set A := rti_a orig dir tri with hA
  set U := rti_u orig dir tri with hU
  set V := rti_v orig dir tri with hV
  set T := rti_t orig dir tri with hT
  show (if -rtiEps < A ∧ A < rtiEps then none
        else if U < 0 ∨ U > 1 then none
        else if V < 0 ∨ U + V > 1 then none
        else if T > rtiEps then some T else none) =
      if |A| < rtiEps ∨ U < 0 ∨ U > 1 ∨ V < 0 ∨ U + V > 1 ∨ T ≤ rtiEps then none else some T
  by_cases h1 : -rtiEps < A ∧ A < rtiEps
  · rw [if_pos h1, if_pos (Or.inl (abs_lt.mpr h1))]
  · rw [if_neg h1]
    by_cases h2 : U < 0 ∨ U > 1
    · rcases h2 with h2 | h2
      · rw [if_pos (Or.inl h2), if_pos (Or.inr (Or.inl h2))]
      · rw [if_pos (Or.inr h2), if_pos (Or.inr (Or.inr (Or.inl h2)))]
    · rw [if_neg h2]
      by_cases h3 : V < 0 ∨ U + V > 1
      · rcases h3 with h3 | h3
        · rw [if_pos (Or.inl h3), if_pos (Or.inr (Or.inr (Or.inr (Or.inl h3))))]
        · rw [if_pos (Or.inr h3), if_pos (Or.inr (Or.inr (Or.inr (Or.inr (Or.inl h3)))))]
      · rw [if_neg h3]
        by_cases h4 : T > rtiEps
        · rw [if_pos h4, if_neg ?_]
          intro hD
          rcases hD with hD | hD | hD | hD | hD | hD
          · exact h1 (abs_lt.mp hD)
          · exact h2 (Or.inl hD)
          · exact h2 (Or.inr hD)
          · exact h3 (Or.inl hD)
          · exact h3 (Or.inr hD)
          · exact absurd h4 (not_lt.mpr hD)
        · rw [if_neg h4, if_pos (Or.inr (Or.inr (Or.inr (Or.inr (Or.inr (not_lt.mp h4))))))]

/-- The 8 corner vertices `p` of `create_cube` in source order. -/
def cubePoints (x y z size height : ℚ) : List Vec3 :=
  [⟨x, y, z⟩, ⟨x + size, y, z⟩, ⟨x + size, y + size, z⟩, ⟨x, y + size, z⟩,
   ⟨x, y, z + height⟩, ⟨x + size, y, z + height⟩,
   ⟨x + size, y + size, z + height⟩, ⟨x, y + size, z + height⟩]

/-- `create_cube` from `disk_shadow_stl_generator.py`: the 12 triangles of a
rectangular box, listed exactly as in the source (bottom, top, 4 sides). -/
def create_cube (x y z size height : ℚ) : List Face :=
  let p0 : Vec3 := ⟨x, y, z⟩
  let p1 : Vec3 := ⟨x + size, y, z⟩
  let p2 : Vec3 := ⟨x + size, y + size, z⟩
  let p3 : Vec3 := ⟨x, y + size, z⟩
  let p4 : Vec3 := ⟨x, y, z + height⟩
  let p5 : Vec3 := ⟨x + size, y, z + height⟩
  let p6 : Vec3 := ⟨x + size, y + size, z + height⟩
  let p7 : Vec3 := ⟨x, y + size, z + height⟩
  [(p0, p3, p1), (p1, p3, p2),
   (p4, p5, p7), (p5, p6, p7),
   (p0, p1, p4), (p1, p5, p4),
   (p1, p2, p5), (p2, p6, p5),
   (p2, p3, p6), (p3, p7, p6),
   (p3, p0, p7), (p0, p4, p7)]

/-- `create_pyramid`: 4 base corners, apex at the footprint centre raised by
`height`; 2 base triangles followed by 4 side triangles. -/
def create_pyramid (x y z size height : ℚ) : List Face :=
  let b0 : Vec3 := ⟨x, y, z⟩
  let b1 : Vec3 := ⟨x + size, y, z⟩
  let b2 : Vec3 := ⟨x + size, y + size, z⟩
  let b3 : Vec3 := ⟨x, y + size, z⟩
  let apex : Vec3 := ⟨x + size / 2, y + size / 2, z + height⟩
  [(b0, b1, b2), (b0, b2, b3),
   (b0, b1, apex), (b1, b2, apex),
   (b2, b3, apex), (b3, b0, apex)]

/-- `create_cylinder`: per segment one bottom fan slice, one top fan slice and
two side-wall triangles.  `fcos`, `fsin` and `pi_` model the floating-point
`math.cos`, `math.sin` and `math.pi` (rational-valued at runtime); the source
default `segments = 12` is passed explicitly by the generator. -/
def create_cylinder (fcos fsin : ℚ → ℚ) (pi_ : ℚ)
    (x y z size height : ℚ) (segments : ℕ) : List Face :=
  let radius := size / 2
  let cx := x + radius
  let cy := y + radius
  (List.range segments).flatMap (fun i =>
    let a1 := 2 * pi_ * i / segments
    let a2 := 2 * pi_ * (i + 1) / segments
    let p1 : Vec3 := ⟨cx + radius * fcos a1, cy + radius * fsin a1, z⟩
    let p2 : Vec3 := ⟨cx + radius * fcos a2, cy + radius * fsin a2, z⟩
    let p1t : Vec3 := ⟨p1.x, p1.y, z + height⟩
    let p2t : Vec3 := ⟨p2.x, p2.y, z + height⟩
    [(⟨cx, cy, z⟩, p2, p1), (⟨cx, cy, z + height⟩, p1t, p2t),
     (p1, p2, p1t), (p2, p2t, p1t)])

/-- Length of a `flatMap` whose blocks all have the same length. -/
theorem length_flatMap_const {α β : Type} (f : α → List β) (k : ℕ)
    (hf : ∀ a, (f a).length = k) (l : List α) :
    (l.flatMap f).length = k * l.length := by
  induction l with
  | nil => simp
  | cons a t ih => simp [List.flatMap_cons, hf, ih, Nat.mul_succ]; omega

/-- C6: `create_cube` returns exactly 12 triangles all of whose vertices are
among the 8 box corners; `create_pyramid` returns exactly 6 triangles
(2 base + 4 sides whose third vertex is the apex at the footprint centre
raised by `height`); `create_cylinder` with `N` segments returns exactly
`4 * N` triangles. -/
theorem primitive_triangle_counts_spec (x y z size height : ℚ) (segments : ℕ)
    (fcos fsin : ℚ → ℚ) (pi_ : ℚ) :
    (create_cube x y z size height).length = 12 ∧
    (∀ f ∈ create_cube x y z size height,
        f.1 ∈ cubePoints x y z size height ∧
        f.2.1 ∈ cubePoints x y z size height ∧
        f.2.2 ∈ cubePoints x y z size height) ∧
    (create_pyramid x y z size height).length = 6 ∧
    (∀ f ∈ (create_pyramid x y z size height).drop 2,
        f.2.2 = Vec3.mk (x + size / 2) (y + size / 2) (z + height)) ∧
    (create_cylinder fcos fsin pi_ x y z size height segments).length = 4 * segments := by
  refine ⟨rfl, ?_, rfl, ?_, ?_⟩
  · intro f hf
    simp only [create_cube, List.mem_cons, List.not_mem_nil, or_false] at hf
    rcases hf with h | h | h | h | h | h | h | h | h | h | h | h <;>
      subst h <;> simp [cubePoints]
  · intro f hf
    simp only [create_pyramid, List.drop, List.mem_cons, List.not_mem_nil, or_false] at hf
    rcases hf with h | h | h | h <;> subst h <;> rfl
  · simp only [create_cylinder]
    refine (length_flatMap_const _ 4 ?_ _).trans ?_
    · intro a; rfl
    · rw [List.length_range]

/-- The squared length `nx*nx + ny*ny + nz*nz` of the cross product
`(v2 − v1) × (v3 − v1)` computed by `_normal`. -/
def crossNormSq (v1 v2 v3 : Vec3) : ℚ :=
  dot (cross (vsub v2 v1) (vsub v3 v1)) (cross (vsub v2 v1) (vsub v3 v1))

/-- `_normal` from `disk_shadow_stl_generator.py`: the normalised cross
product of `(v2 − v1, v3 − v1)`.  The source computes
`length = math.sqrt(nx*nx + ny*ny + nz*nz) or 1.0`; `crossNormSq v1 v2 v3`
is definitionally that sum of squares, `fsqrt` models the floating-point
`math.sqrt`, and the Python idiom `s or 1.0` yields `1.0` exactly when
`s == 0.0`. -/
def _normal (fsqrt : ℚ → ℚ) (v1 v2 v3 : Vec3) : Vec3 :=
  let n := cross (vsub v2 v1) (vsub v3 v1)
  let length : ℚ :=
    if fsqrt (crossNormSq v1 v2 v3) = 0 then 1 else fsqrt (crossNormSq v1 v2 v3)
  vdiv n length

/-- A sum of three squares over `ℚ` vanishes only if each term does. -/
theorem sumsq_eq_zero {a b c : ℚ} (h : a * a + b * b + c * c = 0) :
    a = 0 ∧ b = 0 ∧ c = 0 := by
  refine ⟨?_, ?_, ?_⟩ <;>
    nlinarith [mul_self_nonneg a, mul_self_nonneg b, mul_self_nonneg c]

/-- The squared cross-product length is nonnegative. -/
theorem crossNormSq_nonneg (v1 v2 v3 : Vec3) : 0 ≤ crossNormSq v1 v2 v3 := by
  have h := mul_self_nonneg (cross (vsub v2 v1) (vsub v3 v1)).x
  have h' := mul_self_nonneg (cross (vsub v2 v1) (vsub v3 v1)).y
  have h'' := mul_self_nonneg (cross (vsub v2 v1) (vsub v3 v1)).z
  unfold crossNormSq dot
  linarith

/-- C4: if the floating-point square root is accurate to relative error
`2⁻⁵³` (the IEEE-754 guarantee for a correctly rounded binary64 sqrt), then
for every triangle of non-zero area the serializer-computed normal has
magnitude `1` within tolerance `1e-5`, while for a zero-area triangle the
zero length is replaced by the denominator `1.0` and `_normal` returns the
zero vector (it does not raise). -/
theorem normal_unit_or_zero_spec (fsqrt : ℚ → ℚ) (v1 v2 v3 : Vec3)
    (hacc : |((fsqrt (crossNormSq v1 v2 v3) : ℚ) : ℝ) -
              Real.sqrt ((crossNormSq v1 v2 v3 : ℚ) : ℝ)| ≤
            Real.sqrt ((crossNormSq v1 v2 v3 : ℚ) : ℝ) / 2 ^ 53) :
    (crossNormSq v1 v2 v3 ≠ 0 →
      |Real.sqrt ((((_normal fsqrt v1 v2 v3).x ^ 2 + (_normal fsqrt v1 v2 v3).y ^ 2 +
          (_normal fsqrt v1 v2 v3).z ^ 2 : ℚ) : ℝ)) - 1| ≤ 1 / 100000) ∧
    (crossNormSq v1 v2 v3 = 0 → _normal fsqrt v1 v2 v3 = ⟨0, 0, 0⟩) := by
  set s := crossNormSq v1 v2 v3 with hs_def
  set L := fsqrt s with hL_def
  constructor
  · intro hs
    have hs0 : (0:ℚ) ≤ s := crossNormSq_nonneg v1 v2 v3
    have hspos : (0:ℚ) < s := lt_of_le_of_ne hs0 (Ne.symm hs)
    have hsR : (0:ℝ) < ((s:ℚ):ℝ) := by exact_mod_cast hspos
    set r := Real.sqrt ((s:ℚ):ℝ) with hr_def
    have hrpos : 0 < r := Real.sqrt_pos.mpr hsR
    have hbound := abs_le.mp hacc
    have hdivlt : r / 2 ^ 53 < r := div_lt_self hrpos (by norm_num)
    have hLposR : (0:ℝ) < ((L:ℚ):ℝ) := by linarith [hbound.1]
    have hLpos : (0:ℚ) < L := by exact_mod_cast hLposR
    have hLne : L ≠ 0 := ne_of_gt hLpos
    have hn : _normal fsqrt v1 v2 v3 =
        vdiv (cross (vsub v2 v1) (vsub v3 v1)) L := by
      simp only [_normal]
      rw [if_neg hLne]
    set n := cross (vsub v2 v1) (vsub v3 v1) with hn_def
    have hsum : ((_normal fsqrt v1 v2 v3).x ^ 2 + (_normal fsqrt v1 v2 v3).y ^ 2 +
        (_normal fsqrt v1 v2 v3).z ^ 2 : ℚ) = s / L ^ 2 := by
      rw [hn]
      have hdot : s = n.x * n.x + n.y * n.y + n.z * n.z := by
        rw [hs_def]; rfl
      simp only [vdiv]
      field_simp
      rw [hdot]; ring
    rw [hsum]
    have hcast : ((s / L ^ 2 : ℚ) : ℝ) = ((s:ℚ):ℝ) / ((L:ℚ):ℝ) ^ 2 := by push_cast; ring
    have hsq : ((s:ℚ):ℝ) / ((L:ℚ):ℝ) ^ 2 = (r / ((L:ℚ):ℝ)) ^ 2 := by
      rw [div_pow, hr_def, Real.sq_sqrt hsR.le]
    rw [hcast, hsq, Real.sqrt_sq (by positivity)]
    have key : r / ((L:ℚ):ℝ) - 1 = (r - ((L:ℚ):ℝ)) / ((L:ℚ):ℝ) := by
      field_simp
    rw [key, abs_div, abs_of_pos hLposR]
    rw [div_le_iff hLposR]
    have habs : |r - ((L:ℚ):ℝ)| ≤ r / 2 ^ 53 := by
      rw [abs_sub_comm]; exact hacc
    have hpow : (2:ℝ) ^ 53 = 9007199254740992 := by norm_num
    have hLlb : ((L:ℚ):ℝ) ≥ r - r / 2 ^ 53 := by linarith [hbound.1]
    have hr53 : r / 2 ^ 53 * 100000 ≤ r - r / 2 ^ 53 := by
      rw [← sub_nonneg]
      have : r - r / 2 ^ 53 - r / 2 ^ 53 * 100000 = r * (1 - 100001 / 2 ^ 53) := by ring
      rw [this]
      apply mul_nonneg hrpos.le
      rw [hpow]; norm_num
    calc |r - ((L:ℚ):ℝ)| ≤ r / 2 ^ 53 := habs
      _ ≤ (r - r / 2 ^ 53) / 100000 := by linarith
      _ ≤ 1 / 100000 * ((L:ℚ):ℝ) := by linarith
  · intro hs
    have hsqrt0 : Real.sqrt ((s:ℚ):ℝ) = 0 := by
      rw [hs]; simp
    have hL0R : ((L:ℚ):ℝ) = 0 := by
      rw [hsqrt0] at hacc
      have hb := abs_le.mp hacc
      have hb1 := hb.1
      have hb2 := hb.2
      simp only [zero_div] at hb1 hb2
      linarith
    have hL0 : L = 0 := by exact_mod_cast hL0R
    have hcomp : crossNormSq v1 v2 v3 = 0 := hs
    unfold crossNormSq at hcomp
    simp only [dot] at hcomp
    obtain ⟨hx, hy, hz⟩ := sumsq_eq_zero hcomp
    simp only [_normal]
    rw [if_pos hL0]
    simp only [vdiv]
    rw [hx, hy, hz]
    norm_num

/-- The Python exceptions the pipeline can raise: `ValueError` for an
unknown shape selector, `OverflowError` from `int.to_bytes(4, ...)` on a
count `≥ 2^32`, `OverflowError` from `struct.pack "<f"` on a value outside
binary32 range, and `ZeroDivisionError`. -/
inductive GenError
  | unknownShape (s : String)
  | countOverflow
  | packOverflow
  | divByZero
deriving DecidableEq, Repr

/-- Round a rational to the nearest integer, ties to even (the IEEE-754
default rounding used by `struct.pack "<f"`). -/
def rne (y : ℚ) : ℤ :=
  let fl := ⌊y⌋
  let fr := y - fl
  if fr < 1 / 2 then fl
  else if 1 / 2 < fr then fl + 1
  else if fl % 2 = 0 then fl else fl + 1

/-- The working binary exponent for rounding `x` to binary32: the floor of
`log₂ |x|`, clamped below at the subnormal threshold `-126`. -/
def f32Exp (x : ℚ) : ℤ := max (Int.log 2 |x|) (-126)

/-- The 24-bit significand candidate: `|x| / 2^(e−23)` rounded to nearest,
ties to even. -/
def f32Sig (x : ℚ) : ℤ := rne (|x| * (2 : ℚ) ^ ((23 : ℤ) - f32Exp x))

/-- Round a rational to IEEE-754 binary32 and return the 32-bit pattern.
`none` models the `OverflowError` that `struct.pack "<f"` raises for values
outside the binary32 range.  Zero maps to the +0.0 pattern; subnormals are
encoded with exponent field 0; a significand that rounds up to `2^24`
bumps the exponent. -/
def roundF32 (x : ℚ) : Option ℕ :=
  if x = 0 then some 0
  else
    let s : ℕ := if x < 0 then 1 else 0
    let q : ℤ := f32Sig x
    let e'' : ℤ := if q = 2 ^ 24 then f32Exp x + 1 else f32Exp x
    let q' : ℤ := if q = 2 ^ 24 then 2 ^ 23 else q
    if 127 < e'' then none
    else if q' < 2 ^ 23 then
      some (s * 2 ^ 31 + q'.toNat)
    else
      some (s * 2 ^ 31 + (e'' + 127).toNat * 2 ^ 23 + (q' - 2 ^ 23).toNat)

/-- Decode a 32-bit pattern as the rational value of the binary32 float it
represents (`struct.unpack "<f"`).  Exponent field 255 encodes ±inf/NaN,
which have no rational value; the uniform formula below is a sentinel for
that case, unreachable for files produced by `write_binary_stl` because
`roundF32` rejects overflow. -/
def f32Val (bits : ℕ) : ℚ :=
  let s : ℕ := bits / 2 ^ 31 % 2
  let e : ℕ := bits / 2 ^ 23 % 2 ^ 8
  let m : ℕ := bits % 2 ^ 23
  let sign : ℚ := if s = 1 then -1 else 1
  if e = 0 then sign * (m : ℚ) * (2 : ℚ) ^ (-(149 : ℤ))
  else sign * ((2 : ℚ) ^ (23 : ℕ) + (m : ℚ)) * (2 : ℚ) ^ ((e : ℤ) - 150)

/-- The little-endian 4-byte encoding of a 32-bit unsigned integer
(`int.to_bytes(4, "little")` / the byte layout of `struct.pack "<I"` and
`"<f"`). -/
def natToBytesLE4 (n : ℕ) : List ℕ :=
  [n % 256, n / 256 % 256, n / 65536 % 256, n / 16777216 % 256]

/-- Little-endian decoding of a byte list (`struct.unpack "<I"`). -/
def bytesToNatLE (bs : List ℕ) : ℕ :=
  bs.foldr (fun b acc => b + 256 * acc) 0

/-- The 80-byte STL header: the ASCII bytes of
`"Created by disk_shadow_generator"` padded with spaces to 80 bytes
(`b"Created by disk_shadow_generator".ljust(80, b" ")`). -/
def stlHeader : List ℕ :=
  [67, 114, 101, 97, 116, 101, 100, 32, 98, 121, 32, 100, 105, 115, 107, 95,
   115, 104, 97, 100, 111, 119, 95, 103, 101, 110, 101, 114, 97, 116, 111, 114] ++
  List.replicate 48 32

/-- Option-valued traversal; the first failure wins (a raised exception
aborts the Python loop). -/
def mapOpt {α β : Type} (f : α → Option β) : List α → Option (List β)
  | [] => some []
  | a :: l =>
      match f a, mapOpt f l with
      | some b, some bl => some (b :: bl)
      | _, _ => none

/-- The 12 floats `struct.pack`ed for one STL record, in source order:
normal, then the three vertices. -/
def faceFloats (fsqrt : ℚ → ℚ) (f : Face) : List ℚ :=
  let n := _normal fsqrt f.1 f.2.1 f.2.2
  [n.x, n.y, n.z,
   f.1.x, f.1.y, f.1.z,
   f.2.1.x, f.2.1.y, f.2.1.z,
   f.2.2.x, f.2.2.y, f.2.2.z]

/-- One 50-byte STL record: 12 binary32 little-endian floats followed by the
2-byte zero attribute field. -/
def packFace (fsqrt : ℚ → ℚ) (f : Face) : Option (List ℕ) :=
  (mapOpt roundF32 (faceFloats fsqrt f)).map
    (fun bl => bl.flatMap natToBytesLE4 ++ [0, 0])

/-- `write_binary_stl` from `disk_shadow_stl_generator.py`, as the byte
stream it writes: 80-byte header, 4-byte little-endian triangle count, then
one 50-byte record per face. -/
def write_binary_stl (fsqrt : ℚ → ℚ) (faces : List Face) : Except GenError (List ℕ) :=
  if 2 ^ 32 ≤ faces.length then .error .countOverflow
  else
    match mapOpt (packFace fsqrt) faces with
    | none => .error .packOverflow
    | some recs => .ok (stlHeader ++ natToBytesLE4 faces.length ++ recs.flatten)

/-- Decode one 50-byte record (`struct.unpack "<12fH"`), keeping floats
3..11 as the three vertices — the stored normal (floats 0..2) and the
attribute field are read and discarded, exactly as in `load_binary_stl`. -/
def parseRecord (bs : List ℕ) : Face :=
  let fl := fun k => f32Val (bytesToNatLE ((bs.drop (4 * k)).take 4))
  (⟨fl 3, fl 4, fl 5⟩, ⟨fl 6, fl 7, fl 8⟩, ⟨fl 9, fl 10, fl 11⟩)

/-- Read `n` 50-byte records; `none` models the `struct.error` raised when
`f.read(50)` returns fewer than 50 bytes. -/
def parseTriList : ℕ → List ℕ → Option (List Face)
  | 0, _ => some []
  | n + 1, bs =>
      if bs.length < 50 then none
      else (parseTriList n (bs.drop 50)).map (fun ts => parseRecord (bs.take 50) :: ts)

/-- `load_binary_stl` from `raytrace_verify.py`: skip the 80-byte header,
read the 4-byte little-endian count, then read exactly that many records;
trailing bytes are ignored.  Files shorter than 84 bytes make the initial
`struct.unpack "<I"` fail. -/
def load_binary_stl (bs : List ℕ) : Option (List Face) :=
  if bs.length < 84 then none
  else parseTriList (bytesToNatLE ((bs.drop 80).take 4)) (bs.drop 84)

theorem floor_le_rne (y : ℚ) : ⌊y⌋ ≤ rne y := by
  simp only [rne]
  split_ifs <;> omega

theorem rne_le_floor_add_one (y : ℚ) : rne y ≤ ⌊y⌋ + 1 := by
  simp only [rne]
  split_ifs <;> omega

theorem rne_nonneg {y : ℚ} (hy : 0 ≤ y) : 0 ≤ rne y := by
  have h1 := Int.floor_nonneg.mpr hy
  have h2 := floor_le_rne y
  omega

theorem abs_rne_sub_le (y : ℚ) : |(rne y : ℚ) - y| ≤ 1 / 2 := by
  have hfl : (⌊y⌋ : ℚ) ≤ y := Int.floor_le y
  have hfu : y < ⌊y⌋ + 1 := Int.lt_floor_add_one y
  simp only [rne]
  split_ifs with h1 h2 h3
  · rw [abs_le]; constructor <;> linarith
  · rw [abs_le]; push_cast; constructor <;> linarith
  · have heq : y - ⌊y⌋ = 1 / 2 := le_antisymm (not_lt.mp h2) (not_lt.mp h1)
    rw [abs_le]; constructor <;> linarith
  · have heq : y - ⌊y⌋ = 1 / 2 := le_antisymm (not_lt.mp h2) (not_lt.mp h1)
    rw [abs_le]; push_cast; constructor <;> linarith

/-- Field extraction from a subnormal bit pattern (exponent field 0). -/
theorem f32Val_subnormal (s mm : ℕ) (hs : s < 2) (hm : mm < 2 ^ 23) :
    f32Val (s * 2 ^ 31 + mm) =
      (if s = 1 then (-1 : ℚ) else 1) * (mm : ℚ) * (2 : ℚ) ^ (-(149 : ℤ)) := by
  have h1 : (s * 2 ^ 31 + mm) / 2 ^ 31 % 2 = s := by omega
  have h2 : (s * 2 ^ 31 + mm) / 2 ^ 23 % 2 ^ 8 = 0 := by omega
  have h3 : (s * 2 ^ 31 + mm) % 2 ^ 23 = mm := by omega
  simp only [f32Val, h1, h2, h3, if_pos]

/-- Field extraction from a normal bit pattern (exponent field `f`). -/
theorem f32Val_normal (s f mm : ℕ) (hs : s < 2) (hf1 : 1 ≤ f) (hf : f ≤ 254)
    (hm : mm < 2 ^ 23) :
    f32Val (s * 2 ^ 31 + f * 2 ^ 23 + mm) =
      (if s = 1 then (-1 : ℚ) else 1) * ((2 : ℚ) ^ (23 : ℕ) + (mm : ℚ)) *
        (2 : ℚ) ^ ((f : ℤ) - 150) := by
  have h1 : (s * 2 ^ 31 + f * 2 ^ 23 + mm) / 2 ^ 31 % 2 = s := by omega
  have h2 : (s * 2 ^ 31 + f * 2 ^ 23 + mm) / 2 ^ 23 % 2 ^ 8 = f := by omega
  have h3 : (s * 2 ^ 31 + f * 2 ^ 23 + mm) % 2 ^ 23 = mm := by omega
  have hf0 : f ≠ 0 := by omega
  simp only [f32Val, h1, h2, h3, if_neg hf0]

theorem bytesToNatLE_natToBytesLE4 (n : ℕ) (h : n < 2 ^ 32) :
    bytesToNatLE (natToBytesLE4 n) = n := by
  simp only [natToBytesLE4, bytesToNatLE, List.foldr]
  omega

/-- Extract the `k`-th 4-byte block of a packed float list. -/
theorem flatMap_blocks_extract (bl : List ℕ) (rest : List ℕ) :
    ∀ k, k < bl.length →
      ((bl.flatMap natToBytesLE4 ++ rest).drop (4 * k)).take 4 =
        natToBytesLE4 (bl.getD k 0) := by
  induction bl generalizing rest with
  | nil => intro k hk; simp at hk
  | cons b tl ih =>
      intro k hk
      rw [List.flatMap_cons, List.append_assoc]
      cases k with
      | zero =>
          simp only [Nat.mul_zero, List.drop_zero, List.getD_cons_zero]
          exact List.take_left' rfl
      | succ k' =>
          rw [show 4 * (k' + 1) = (natToBytesLE4 b).length + 4 * k' from by
                have h4 : (natToBytesLE4 b).length = 4 := rfl
                omega,
            List.drop_append, List.getD_cons_succ]
          exact ih rest k' (by simpa using hk)

theorem mapOpt_cons_some {α β : Type} {f : α → Option β} {a : α} {l : List α}
    {r : List β} (h : mapOpt f (a :: l) = some r) :
    ∃ b bl, f a = some b ∧ mapOpt f l = some bl ∧ r = b :: bl := by
  cases hfa : f a with
  | none =>
      simp only [mapOpt, hfa] at h
      exact Option.noConfusion h
  | some b =>
      cases hml : mapOpt f l with
      | none =>
          simp only [mapOpt, hfa, hml] at h
          exact Option.noConfusion h
      | some bl =>
          simp only [mapOpt, hfa, hml, Option.some.injEq] at h
          exact ⟨b, bl, rfl, rfl, h.symm⟩

theorem mapOpt_forall₂ {α β : Type} {f : α → Option β} :
    ∀ {l : List α} {r : List β}, mapOpt f l = some r →
      List.Forall₂ (fun a b => f a = some b) l r := by
  intro l
  induction l with
  | nil =>
      intro r h
      simp only [mapOpt, Option.some.injEq] at h
      subst h
      exact List.Forall₂.nil
  | cons a t ih =>
      intro r h
      obtain ⟨b, bl, hfa, hml, rfl⟩ := mapOpt_cons_some h
      exact List.Forall₂.cons hfa (ih hml)

theorem flatten_length_const (recs : List (List ℕ)) (h : ∀ r ∈ recs, r.length = 50) :
    recs.flatten.length = 50 * recs.length := by
  induction recs with
  | nil => simp
  | cons r t ih =>
      simp only [List.flatten_cons, List.length_append, List.length_cons]
      rw [h r (List.mem_cons_self r t), ih (fun r' hr' => h r' (List.mem_cons_of_mem r hr'))]
      ring

theorem parseTriList_flatten (recs : List (List ℕ)) (h : ∀ r ∈ recs, r.length = 50) :
    parseTriList recs.length recs.flatten = some (recs.map parseRecord) := by
  induction recs with
  | nil => rfl
  | cons r t ih =>
      have hr : r.length = 50 := h r (List.mem_cons_self r t)
      have ht : ∀ r' ∈ t, r'.length = 50 := fun r' hr' => h r' (List.mem_cons_of_mem r hr')
      simp only [List.length_cons, List.flatten_cons, parseTriList]
      rw [if_neg (by simp [hr]), List.take_left' hr, List.drop_left' hr, ih ht]
      rfl

/-- Power-of-two product rule over `ℚ`, used throughout the rounding proofs. -/
theorem two_zpow_add (a b : ℤ) : (2 : ℚ) ^ a * (2 : ℚ) ^ b = (2 : ℚ) ^ (a + b) :=
  (zpow_add₀ (by norm_num : (2 : ℚ) ≠ 0) a b).symm

/-- Merge a natural power of two into an integer power. -/
theorem two_pow_mul_zpow (a : ℕ) (b : ℤ) :
    (2 : ℚ) ^ a * (2 : ℚ) ^ b = (2 : ℚ) ^ ((a : ℤ) + b) := by
  rw [← zpow_natCast (2 : ℚ) a, two_zpow_add]

/-- A value accepted by `roundF32` yields a 32-bit pattern whose decoded
value is within half an ulp: relative error `2⁻²⁴` plus the absolute
subnormal term `2⁻¹⁵⁰`. -/
theorem roundF32_val (x : ℚ) (b : ℕ) (h : roundF32 x = some b) :
    b < 2 ^ 32 ∧ |f32Val b - x| ≤ |x| / 2 ^ 24 + 1 / 2 ^ 150 := by
  by_cases hx : x = 0
  · rw [roundF32, if_pos hx] at h
    have hb : b = 0 := by injection h with h; omega
    subst hb
    have hv : f32Val 0 = 0 := by norm_num [f32Val]
    refine ⟨by norm_num, ?_⟩
    rw [hv, hx]
    norm_num
  · simp only [roundF32, hx, ite_false] at h
    set s : ℕ := if x < 0 then 1 else 0 with hs_def
    set E : ℤ := f32Exp x with hE_def
    set q : ℤ := f32Sig x with hq_def
    set y : ℚ := |x| * (2 : ℚ) ^ ((23 : ℤ) - E) with hy_def
    have hs_lt : s < 2 := by rw [hs_def]; split_ifs <;> norm_num
    have hm_pos : (0 : ℚ) < |x| := abs_pos.mpr hx
    have hElb : -126 ≤ E := by rw [hE_def, f32Exp]; exact le_max_right _ _
    have hq_rne : q = rne y := by rw [hq_def, hy_def, hE_def]; rfl
    have hzpow_pos : ∀ a : ℤ, (0 : ℚ) < 2 ^ a := fun a => zpow_pos (by norm_num) a
    have hy_pos : 0 < y := mul_pos hm_pos (hzpow_pos _)
    have hqy : |(q : ℚ) - y| ≤ 1 / 2 := by rw [hq_rne]; exact abs_rne_sub_le y
    have hq0 : 0 ≤ q := by rw [hq_rne]; exact rne_nonneg hy_pos.le
    have hm_y : |x| = y * (2 : ℚ) ^ (E - 23) := by
      rw [hy_def, mul_assoc, two_zpow_add]
      norm_num
    have hhalf : (1 / 2) * (2 : ℚ) ^ (E - 23) ≤ |x| / 2 ^ 24 + 1 / 2 ^ 150 := by
      by_cases hlog : -126 ≤ Int.log 2 |x|
      · have hE_eq : E = Int.log 2 |x| := by
          rw [hE_def, f32Exp]; exact max_eq_left hlog
        have hx_lb : (2 : ℚ) ^ E ≤ |x| := by
          rw [hE_eq]
          exact_mod_cast Int.zpow_log_le_self (by norm_num) hm_pos
        have e2 : (2 : ℚ) ^ (E - 24) ≤ |x| * (2 : ℚ) ^ (-(24 : ℤ)) := by
          calc (2 : ℚ) ^ (E - 24) = 2 ^ E * 2 ^ (-(24 : ℤ)) := by
                rw [two_zpow_add, show E + -(24 : ℤ) = E - 24 by ring]
            _ ≤ |x| * 2 ^ (-(24 : ℤ)) :=
                mul_le_mul_of_nonneg_right hx_lb (hzpow_pos _).le
        have e1 : (1 / 2) * (2 : ℚ) ^ (E - 23) = (2 : ℚ) ^ (E - 24) := by
          rw [show E - 23 = (E - 24) + 1 by ring, ← two_zpow_add,
            show (2 : ℚ) ^ (1 : ℤ) = 2 from by norm_num]
          ring
        have e3 : |x| * (2 : ℚ) ^ (-(24 : ℤ)) = |x| / 2 ^ 24 := by
          rw [zpow_neg, div_eq_mul_inv]
          norm_num
        have e4 : (0 : ℚ) < 1 / 2 ^ 150 := by positivity
        rw [e1]
        rw [e3] at e2
        linarith
      · have hE_eq : E = -126 := by
          rw [hE_def, f32Exp]
          exact max_eq_right (le_of_lt (not_le.mp hlog))
        have e1 : (1 / 2) * (2 : ℚ) ^ (E - 23) = 1 / 2 ^ 150 := by
          rw [hE_eq, show (-126 : ℤ) - 23 = -(149 : ℤ) by ring, zpow_neg,
            show ((2 : ℚ) ^ (149 : ℤ)) = (2 : ℚ) ^ (149 : ℕ) from by
              rw [← zpow_natCast (2 : ℚ) 149]; norm_num,
            show ((2 : ℚ) ^ (150 : ℕ)) = (2 : ℚ) ^ (149 : ℕ) * 2 from by
              rw [pow_succ]]
          rw [one_div, one_div, mul_inv]
          ring
        have e2 : (0 : ℚ) ≤ |x| / 2 ^ 24 := by positivity
        linarith [e1.le]
    have hVerr : abs ((q : ℚ) * (2 : ℚ) ^ (E - 23) - |x|) ≤ |x| / 2 ^ 24 + 1 / 2 ^ 150 := by
      have h1 : (q : ℚ) * (2 : ℚ) ^ (E - 23) - |x| = ((q : ℚ) - y) * (2 : ℚ) ^ (E - 23) := by
        rw [hm_y]; ring
      rw [h1, abs_mul, abs_of_pos (hzpow_pos _)]
      calc |(q : ℚ) - y| * (2 : ℚ) ^ (E - 23)
          ≤ (1 / 2) * (2 : ℚ) ^ (E - 23) :=
            mul_le_mul_of_nonneg_right hqy (hzpow_pos _).le
        _ ≤ |x| / 2 ^ 24 + 1 / 2 ^ 150 := hhalf
    have habs_final : ∀ V : ℚ, V = (q : ℚ) * (2 : ℚ) ^ (E - 23) →
        |(if s = 1 then (-1 : ℚ) else 1) * V - x| ≤ |x| / 2 ^ 24 + 1 / 2 ^ 150 := by
      intro V hV
      by_cases hneg : x < 0
      · have hs1 : s = 1 := by rw [hs_def, if_pos hneg]
        rw [hs1, if_pos rfl, hV]
        have habs : |x| = -x := abs_of_neg hneg
        have heq : -1 * ((q : ℚ) * (2 : ℚ) ^ (E - 23)) - x
            = -((q : ℚ) * (2 : ℚ) ^ (E - 23) - |x|) := by rw [habs]; ring
        rw [heq, abs_neg]
        exact hVerr
      · have hs0 : s = 0 := by rw [hs_def, if_neg hneg]
        rw [hs0, if_neg (by norm_num), hV]
        have habs : |x| = x := abs_of_nonneg (not_lt.mp hneg)
        have heq : 1 * ((q : ℚ) * (2 : ℚ) ^ (E - 23)) - x
            = (q : ℚ) * (2 : ℚ) ^ (E - 23) - |x| := by rw [habs]; ring
        rw [heq]
        exact hVerr
    have hq_le : q ≤ 2 ^ 24 := by
      have hyub : y < (2 : ℚ) ^ (24 : ℤ) := by
        by_cases hlog : -126 ≤ Int.log 2 |x|
        · have hE_eq : E = Int.log 2 |x| := by
            rw [hE_def, f32Exp]; exact max_eq_left hlog
          have hx_ub : |x| < (2 : ℚ) ^ (E + 1) := by
            rw [hE_eq]
            exact_mod_cast Int.lt_zpow_succ_log_self (by norm_num) |x|
          calc y = |x| * (2 : ℚ) ^ ((23 : ℤ) - E) := hy_def
            _ < (2 : ℚ) ^ (E + 1) * (2 : ℚ) ^ ((23 : ℤ) - E) :=
                mul_lt_mul_of_pos_right hx_ub (hzpow_pos _)
            _ = (2 : ℚ) ^ (24 : ℤ) := by
                rw [two_zpow_add, show E + 1 + ((23 : ℤ) - E) = 24 by ring]
        · have hE_eq : E = -126 := by
            rw [hE_def, f32Exp]
            exact max_eq_right (le_of_lt (not_le.mp hlog))
          have hx_ub : |x| < (2 : ℚ) ^ (Int.log 2 |x| + 1) := by
            exact_mod_cast Int.lt_zpow_succ_log_self (by norm_num) |x|
          have hlt : Int.log 2 |x| + 1 ≤ -126 := by omega
          have hx_ub2 : |x| < (2 : ℚ) ^ (-126 : ℤ) :=
            lt_of_lt_of_le hx_ub (zpow_le_zpow_right₀ (by norm_num) hlt)
          calc y = |x| * (2 : ℚ) ^ ((23 : ℤ) - E) := hy_def
            _ < (2 : ℚ) ^ (-126 : ℤ) * (2 : ℚ) ^ ((23 : ℤ) - E) :=
                mul_lt_mul_of_pos_right hx_ub2 (hzpow_pos _)
            _ ≤ (2 : ℚ) ^ (24 : ℤ) := by
                rw [hE_eq, two_zpow_add,
                  show (-126 : ℤ) + ((23 : ℤ) - -126) = 23 by ring]
                exact zpow_le_zpow_right₀ (by norm_num) (by norm_num)
      have hfl : ⌊y⌋ < 2 ^ 24 := by
        rw [Int.floor_lt]
        exact_mod_cast hyub
      have h2 := rne_le_floor_add_one y
      rw [← hq_rne] at h2
      omega
    have hq_lb_normal : -126 ≤ Int.log 2 |x| → 2 ^ 23 ≤ q := by
      intro hlog
      have hE_eq : E = Int.log 2 |x| := by
        rw [hE_def, f32Exp]; exact max_eq_left hlog
      have hx_lb : (2 : ℚ) ^ E ≤ |x| := by
        rw [hE_eq]
        exact_mod_cast Int.zpow_log_le_self (by norm_num) hm_pos
      have hylb : (2 : ℚ) ^ (23 : ℤ) ≤ y := by
        calc (2 : ℚ) ^ (23 : ℤ) = 2 ^ E * 2 ^ ((23 : ℤ) - E) := by
              rw [two_zpow_add, show E + ((23 : ℤ) - E) = 23 by ring]
          _ ≤ |x| * 2 ^ ((23 : ℤ) - E) :=
              mul_le_mul_of_nonneg_right hx_lb (hzpow_pos _).le
          _ = y := hy_def.symm
      have hfl : (2 : ℤ) ^ 23 ≤ ⌊y⌋ := by
        rw [Int.le_floor]
        exact_mod_cast hylb
      have h2 := floor_le_rne y
      rw [← hq_rne] at h2
      omega
    by_cases hbump : q = 2 ^ 24
    · rw [if_pos hbump, if_pos hbump] at h
      by_cases hov : 127 < E + 1
      · rw [if_pos hov] at h
        exact Option.noConfusion h
      · rw [if_neg hov, if_neg (lt_irrefl ((2 : ℤ) ^ 23))] at h
        have hb : b = s * 2 ^ 31 + (E + 1 + 127).toNat * 2 ^ 23 +
            ((2 : ℤ) ^ 23 - 2 ^ 23).toNat := by
          injection h with h
          omega
        rw [sub_self, Int.toNat_zero] at hb
        subst hb
        have hf1 : 1 ≤ (E + 1 + 127).toNat := by omega
        have hf254 : (E + 1 + 127).toNat ≤ 254 := by omega
        refine ⟨by omega, ?_⟩
        rw [f32Val_normal s ((E + 1 + 127).toNat) 0 hs_lt hf1 hf254 (by norm_num),
          mul_assoc]
        apply habs_final
        rw [Int.toNat_of_nonneg (show (0 : ℤ) ≤ E + 1 + 127 by omega)]
        rw [hbump]
        rw [show (((0 : ℕ) : ℚ)) = 0 from rfl, add_zero]
        rw [show (((2 : ℤ) ^ 24 : ℤ) : ℚ) = (2 : ℚ) ^ (24 : ℕ) from by push_cast; ring]
        rw [two_pow_mul_zpow, two_pow_mul_zpow]
        exact congrArg (fun t : ℤ => (2 : ℚ) ^ t) (by ring)
    · rw [if_neg hbump, if_neg hbump] at h
      by_cases hov : 127 < E
      · rw [if_pos hov] at h
        exact Option.noConfusion h
      · rw [if_neg hov] at h
        by_cases hsub : q < 2 ^ 23
        · rw [if_pos hsub] at h
          have hb : b = s * 2 ^ 31 + q.toNat := by
            injection h with h
            omega
          subst hb
          have hE_eq : E = -126 := by
            by_cases hlog : -126 ≤ Int.log 2 |x|
            · exact absurd (hq_lb_normal hlog) (by omega)
            · rw [hE_def, f32Exp]
              exact max_eq_right (le_of_lt (not_le.mp hlog))
          have hqN : q.toNat < 2 ^ 23 := by omega
          refine ⟨by omega, ?_⟩
          rw [f32Val_subnormal s q.toNat hs_lt hqN, mul_assoc]
          apply habs_final
          have hcast : ((q.toNat : ℕ) : ℚ) = ((q : ℤ) : ℚ) := by
            exact_mod_cast congrArg (fun z : ℤ => (z : ℚ)) (Int.toNat_of_nonneg hq0)
          rw [hcast, hE_eq]
          exact congrArg (fun t : ℤ => ((q : ℤ) : ℚ) * (2 : ℚ) ^ t) (by ring)
        · rw [if_neg hsub] at h
          have hb : b = s * 2 ^ 31 + (E + 127).toNat * 2 ^ 23 + (q - 2 ^ 23).toNat := by
            injection h with h
            omega
          subst hb
          have hf1 : 1 ≤ (E + 127).toNat := by omega
          have hf254 : (E + 127).toNat ≤ 254 := by omega
          have hq24 : q < 2 ^ 24 := by omega
          have hmm : (q - 2 ^ 23).toNat < 2 ^ 23 := by omega
          refine ⟨by omega, ?_⟩
          rw [f32Val_normal _ _ _ hs_lt hf1 hf254 hmm, mul_assoc]
          apply habs_final
          rw [Int.toNat_of_nonneg (show (0 : ℤ) ≤ E + 127 by omega)]
          have hcast : (((q - 2 ^ 23).toNat : ℕ) : ℚ) = (q : ℚ) - 2 ^ 23 := by
            have h1 : (((q - 2 ^ 23).toNat : ℕ) : ℤ) = q - 2 ^ 23 :=
              Int.toNat_of_nonneg (by omega)
            have h2 : ((((q - 2 ^ 23).toNat : ℕ) : ℤ) : ℚ) = ((q - 2 ^ 23 : ℤ) : ℚ) := by
              rw [h1]
            push_cast at h2
            exact_mod_cast h2
          rw [hcast]
          rw [show (2 : ℚ) ^ (23 : ℕ) + ((q : ℚ) - 2 ^ 23) = (q : ℚ) from by norm_num]
          congr 1
          ring

/-- One coordinate read back from a mesh file is within float32 round-trip
tolerance of the written value: relative error `2⁻²⁴` plus the subnormal
absolute term `2⁻¹⁵⁰`. -/
def coordTol (w r : ℚ) : Prop := |r - w| ≤ |w| / 2 ^ 24 + 1 / 2 ^ 150

/-- Componentwise float32 round-trip tolerance for a vertex. -/
def vecTol (v v' : Vec3) : Prop :=
  coordTol v.x v'.x ∧ coordTol v.y v'.y ∧ coordTol v.z v'.z

/-- Vertexwise float32 round-trip tolerance for a triangle. -/
def faceTol (f f' : Face) : Prop :=
  vecTol f.1 f'.1 ∧ vecTol f.2.1 f'.2.1 ∧ vecTol f.2.2 f'.2.2

theorem packFace_some_struct (fsqrt : ℚ → ℚ) (t : Face) (r : List ℕ)
    (h : packFace fsqrt t = some r) :
    ∃ bl, mapOpt roundF32 (faceFloats fsqrt t) = some bl ∧
      r = bl.flatMap natToBytesLE4 ++ [0, 0] ∧ bl.length = 12 := by
  unfold packFace at h
  rw [Option.map_eq_some'] at h
  obtain ⟨bl, hbl, hr⟩ := h
  have hlen : bl.length = 12 := by
    have h12 := (mapOpt_forall₂ hbl).length_eq
    simpa [faceFloats] using h12.symm
  exact ⟨bl, hbl, hr.symm, hlen⟩

theorem packFace_length (fsqrt : ℚ → ℚ) (t : Face) (r : List ℕ)
    (h : packFace fsqrt t = some r) : r.length = 50 := by
  obtain ⟨bl, hbl, hr, hlen⟩ := packFace_some_struct fsqrt t r h
  subst hr
  rw [List.length_append, length_flatMap_const natToBytesLE4 4 (fun a => rfl) bl, hlen]
  norm_num

/-- A record written by `packFace` parses back to the face whose vertices
are the float32 roundings of the written vertices. -/
theorem packFace_parseRecord (fsqrt : ℚ → ℚ) (t : Face) (r : List ℕ)
    (h : packFace fsqrt t = some r) : faceTol t (parseRecord r) := by
  obtain ⟨bl, hbl, hr, hlen⟩ := packFace_some_struct fsqrt t r h
  simp only [faceFloats] at hbl
  obtain ⟨b0, bl0, h0, hc0, rfl⟩ := mapOpt_cons_some hbl
  obtain ⟨b1, bl1, h1, hc1, rfl⟩ := mapOpt_cons_some hc0
  obtain ⟨b2, bl2, h2, hc2, rfl⟩ := mapOpt_cons_some hc1
  obtain ⟨b3, bl3, h3, hc3, rfl⟩ := mapOpt_cons_some hc2
  obtain ⟨b4, bl4, h4, hc4, rfl⟩ := mapOpt_cons_some hc3
  obtain ⟨b5, bl5, h5, hc5, rfl⟩ := mapOpt_cons_some hc4
  obtain ⟨b6, bl6, h6, hc6, rfl⟩ := mapOpt_cons_some hc5
  obtain ⟨b7, bl7, h7, hc7, rfl⟩ := mapOpt_cons_some hc6
  obtain ⟨b8, bl8, h8, hc8, rfl⟩ := mapOpt_cons_some hc7
  obtain ⟨b9, bl9, h9, hc9, rfl⟩ := mapOpt_cons_some hc8
  obtain ⟨b10, bl10, h10, hc10, rfl⟩ := mapOpt_cons_some hc9
  obtain ⟨b11, bl11, h11, hc11, rfl⟩ := mapOpt_cons_some hc10
  have hnil : bl11 = [] := by
    simp only [mapOpt, Option.some.injEq] at hc11
    exact hc11.symm
  subst hnil
  subst hr
  have hb : ∀ (bb : ℕ) (w : ℚ), roundF32 w = some bb →
      bytesToNatLE (natToBytesLE4 bb) = bb := fun bb w hh =>
    bytesToNatLE_natToBytesLE4 bb (roundF32_val w bb hh).1
  have hpr : parseRecord
      ((b0 :: b1 :: b2 :: b3 :: b4 :: b5 :: b6 :: b7 :: b8 :: b9 :: b10 :: b11 ::
        ([] : List ℕ)).flatMap natToBytesLE4 ++ [0, 0]) =
      (⟨f32Val b3, f32Val b4, f32Val b5⟩, ⟨f32Val b6, f32Val b7, f32Val b8⟩,
       ⟨f32Val b9, f32Val b10, f32Val b11⟩) := by
    show ((⟨f32Val (bytesToNatLE (natToBytesLE4 b3)), f32Val (bytesToNatLE (natToBytesLE4 b4)),
          f32Val (bytesToNatLE (natToBytesLE4 b5))⟩,
         ⟨f32Val (bytesToNatLE (natToBytesLE4 b6)), f32Val (bytesToNatLE (natToBytesLE4 b7)),
          f32Val (bytesToNatLE (natToBytesLE4 b8))⟩,
         ⟨f32Val (bytesToNatLE (natToBytesLE4 b9)), f32Val (bytesToNatLE (natToBytesLE4 b10)),
          f32Val (bytesToNatLE (natToBytesLE4 b11))⟩) : Face) =
        ((⟨f32Val b3, f32Val b4, f32Val b5⟩, ⟨f32Val b6, f32Val b7, f32Val b8⟩,
         ⟨f32Val b9, f32Val b10, f32Val b11⟩) : Face)
    rw [hb b3 _ h3, hb b4 _ h4, hb b5 _ h5, hb b6 _ h6, hb b7 _ h7, hb b8 _ h8,
      hb b9 _ h9, hb b10 _ h10, hb b11 _ h11]
  rw [hpr]
  exact ⟨⟨(roundF32_val _ _ h3).2, (roundF32_val _ _ h4).2, (roundF32_val _ _ h5).2⟩,
         ⟨(roundF32_val _ _ h6).2, (roundF32_val _ _ h7).2, (roundF32_val _ _ h8).2⟩,
         ⟨(roundF32_val _ _ h9).2, (roundF32_val _ _ h10).2, (roundF32_val _ _ h11).2⟩⟩

theorem forall₂_right_mem {α β : Type} {R : α → β → Prop} :
    ∀ {l₁ : List α} {l₂ : List β}, List.Forall₂ R l₁ l₂ → ∀ b ∈ l₂, ∃ a, R a b := by
  intro l₁ l₂ hf
  induction hf with
  | nil => intro b hb; exact absurd hb (List.not_mem_nil b)
  | @cons a b l₁ l₂ hab htail ih =>
      intro c hc
      rcases List.mem_cons.mp hc with rfl | hc
      · exact ⟨a, hab⟩
      · exact ih c hc

/-- C2: reading back a mesh file just written by the serializer yields the
same number of triangles, with every vertex coordinate equal to the written
one within float32 round-trip tolerance. -/
theorem stl_write_read_round_trip (fsqrt : ℚ → ℚ) (ts : List Face) (bs : List ℕ)
    (hw : write_binary_stl fsqrt ts = .ok bs) :
    ∃ ts', load_binary_stl bs = some ts' ∧ ts'.length = ts.length ∧
      List.Forall₂ faceTol ts ts' := by
  rw [write_binary_stl] at hw
  by_cases hcnt : 2 ^ 32 ≤ ts.length
  · rw [if_pos hcnt] at hw
    exact Except.noConfusion hw
  · rw [if_neg hcnt] at hw
    cases hmap : mapOpt (packFace fsqrt) ts with
      | none =>
          rw [hmap] at hw
          exact Except.noConfusion hw
      | some recs =>
          rw [hmap] at hw
          have hbs : bs = stlHeader ++ natToBytesLE4 ts.length ++ recs.flatten := by
            injection hw with hw
            exact hw.symm
          subst hbs
          have hful := mapOpt_forall₂ hmap
          have hlen_ts : ts.length = recs.length := hful.length_eq
          have hrecl : ∀ r ∈ recs, r.length = 50 := by
            intro r hr
            obtain ⟨t, ht⟩ := forall₂_right_mem hful r hr
            exact packFace_length fsqrt t r ht
          have h80 : stlHeader.length = 80 := rfl
          have h4 : (natToBytesLE4 ts.length).length = 4 := rfl
          have hflat : recs.flatten.length = 50 * recs.length := flatten_length_const recs hrecl
          have hbs_len : (stlHeader ++ natToBytesLE4 ts.length ++ recs.flatten).length
              = 84 + 50 * recs.length := by
            rw [List.length_append, List.length_append, h80, h4, hflat]
          rw [load_binary_stl, if_neg (by omega)]
          have hdrop80 : (stlHeader ++ natToBytesLE4 ts.length ++ recs.flatten).drop 80
              = natToBytesLE4 ts.length ++ recs.flatten := by
            rw [List.append_assoc, List.drop_left' h80]
          have hdrop84 : (stlHeader ++ natToBytesLE4 ts.length ++ recs.flatten).drop 84
              = recs.flatten := by
            rw [show (84 : ℕ) = 80 + 4 from rfl, ← List.drop_drop, hdrop80,
              List.drop_left' h4]
          rw [hdrop80, hdrop84, List.take_left' h4,
            bytesToNatLE_natToBytesLE4 _ (by omega), hlen_ts, parseTriList_flatten recs hrecl]
          refine ⟨recs.map parseRecord, rfl, ?_, ?_⟩
          · rw [List.length_map]
          · rw [List.forall₂_map_right_iff]
            exact hful.imp (fun {t} {r} h => packFace_parseRecord fsqrt t r h)

/-- The generator configuration (the keyword parameters of
`image_to_shadow_disk`; image decoding/resizing is out of scope, the input
arrives as the luminance grid `pix`). -/
structure GenCfg where
  outer_radius : ℚ
  hole_radius : ℚ
  base_thickness : ℚ
  max_relief : ℚ
  resolution : ℕ
  shape : String

/-- Squared distance from the grid centre used by the annulus test:
`r = math.hypot(x + pixel_size/2, y + pixel_size/2)` squared. -/
def cellR2 (ps x y : ℚ) : ℚ := (x + ps / 2) ^ 2 + (y + ps / 2) ^ 2

/-- The annulus inclusion test `hole_radius <= r <= outer_radius` with
`r = math.hypot(dx, dy)`.  Over exact rationals `hole ≤ √r2` iff
`hole ≤ 0 ∨ hole² ≤ r2`, and `√r2 ≤ outer` iff `0 ≤ outer ∧ r2 ≤ outer²`;
the equivalence with the real-valued distance condition is proved in
`cell_inclusion_height_spec`. -/
def cellIncluded (hole outer r2 : ℚ) : Bool :=
  (decide (hole ≤ 0) || decide (hole ^ 2 ≤ r2)) &&
  (decide (0 ≤ outer) && decide (r2 ≤ outer ^ 2))

/-- The cell height `base_thickness + (pixels[j, i] / 255.0) * max_relief`,
where `pixels = 255 - <source image>` (the source inverts the whole uint8
grid up front; here the inversion `255 - pix j i` is applied per cell). -/
def cellHeight (pix : ℕ → ℕ → ℕ) (base relief : ℚ) (i j : ℕ) : ℚ :=
  base + ((255 - pix j i : ℕ) : ℚ) / 255 * relief

/-- `random.choice(["cube", "cylinder", "pyramid"])`: the three candidate
shape names in source order, selected by the random draw `k`. -/
def shapeName (k : Fin 3) : String :=
  if k = 0 then "cube" else if k = 1 then "cylinder" else "pyramid"

/-- The shape dispatch of the generator loop body: `cube`, `cylinder`
(with the source default of 12 segments) or `pyramid`; any other selector
raises `ValueError(f"Unknown shape type: ...")`. -/
def genCellFaces (fcos fsin : ℚ → ℚ) (pi_ : ℚ) (shape_sel : String)
    (x y ps h : ℚ) : Except GenError (List Face) :=
  if shape_sel = "cube" then .ok (create_cube x y 0 ps h)
  else if shape_sel = "cylinder" then .ok (create_cylinder fcos fsin pi_ x y 0 ps h 12)
  else if shape_sel = "pyramid" then .ok (create_pyramid x y 0 ps h)
  else .error (.unknownShape shape_sel)

/-- The inclusion test of the generator loop for grid cell `ij`, with the
`pixel_size`, `x`, `y` computed exactly as in the loop body. -/
def genIncluded (cfg : GenCfg) (ij : ℕ × ℕ) : Bool :=
  cellIncluded cfg.hole_radius cfg.outer_radius
    (cellR2 (2 * cfg.outer_radius / (cfg.resolution : ℚ))
      ((ij.1 : ℚ) * (2 * cfg.outer_radius / (cfg.resolution : ℚ)) - cfg.outer_radius)
      ((ij.2 : ℚ) * (2 * cfg.outer_radius / (cfg.resolution : ℚ)) - cfg.outer_radius))

/-- One iteration of the generator's cell loop.  The accumulator carries
the face list and the number of random draws consumed so far; `rng` models
the stream of `random.choice` results (each a choice among the three shape
names), consumed only in mixed mode. -/
def genStep (fcos fsin : ℚ → ℚ) (pi_ : ℚ) (rng : ℕ → Fin 3) (pix : ℕ → ℕ → ℕ)
    (cfg : GenCfg) (acc : List Face × ℕ) (ij : ℕ × ℕ) :
    Except GenError (List Face × ℕ) :=
  let ps := 2 * cfg.outer_radius / (cfg.resolution : ℚ)
  let x := (ij.1 : ℚ) * ps - cfg.outer_radius
  let y := (ij.2 : ℚ) * ps - cfg.outer_radius
  if genIncluded cfg ij then
    let h := cellHeight pix cfg.base_thickness cfg.max_relief ij.1 ij.2
    let sel := if cfg.shape = "mixed" then shapeName (rng acc.2) else cfg.shape
    let k' := if cfg.shape = "mixed" then acc.2 + 1 else acc.2
    match genCellFaces fcos fsin pi_ sel x y ps h with
    | .ok fs => .ok (acc.1 ++ fs, k')
    | .error e => .error e
  else .ok acc

/-- Error-propagating fold over the grid cells (a Python `for` loop with a
possible raise). -/
def genLoop (step : (List Face × ℕ) → (ℕ × ℕ) → Except GenError (List Face × ℕ)) :
    List (ℕ × ℕ) → (List Face × ℕ) → Except GenError (List Face × ℕ)
  | [], acc => .ok acc
  | ij :: rest, acc =>
      match step acc ij with
      | .error e => .error e
      | .ok acc' => genLoop step rest acc'

/-- The traversal order of the generator: `for i in range(resolution)`
outer, `for j in range(resolution)` inner. -/
def gridIndices (res : ℕ) : List (ℕ × ℕ) :=
  (List.range res).flatMap (fun i => (List.range res).map (fun j => (i, j)))

/-- The face list accumulated by `image_to_shadow_disk`'s double loop. -/
def genFaces (fcos fsin : ℚ → ℚ) (pi_ : ℚ) (rng : ℕ → Fin 3) (pix : ℕ → ℕ → ℕ)
    (cfg : GenCfg) : Except GenError (List Face) :=
  match genLoop (genStep fcos fsin pi_ rng pix cfg) (gridIndices cfg.resolution) ([], 0) with
  | .error e => .error e
  | .ok acc => .ok acc.1

/-- `image_to_shadow_disk` from `disk_shadow_stl_generator.py`, returning
the bytes of the STL file it writes.  `resolution = 0` makes the Python
`pixel_size = 2 * outer_radius / resolution` raise `ZeroDivisionError`. -/
def image_to_shadow_disk (fsqrt fcos fsin : ℚ → ℚ) (pi_ : ℚ) (rng : ℕ → Fin 3)
    (pix : ℕ → ℕ → ℕ) (cfg : GenCfg) : Except GenError (List ℕ) :=
  if cfg.resolution = 0 then .error .divByZero
  else
    match genFaces fcos fsin pi_ rng pix cfg with
    | .error e => .error e
    | .ok faces => write_binary_stl fsqrt faces

/-- The comparison `t < dist` of the shadow loop: `math.inf < dist` is
`False` for every (finite) `dist`. -/
def ltDist (o : Option ℚ) (d : ℚ) : Bool :=
  match o with
  | none => false
  | some t => decide (t < d)

/-- Error-propagating map (a Python `for` loop building a row/raster). -/
def mapExc {α β : Type} (f : α → Except GenError β) : List α → Except GenError (List β)
  | [] => .ok []
  | a :: l =>
      match f a with
      | .error e => .error e
      | .ok b =>
          match mapExc f l with
          | .error e => .error e
          | .ok bl => .ok (b :: bl)

/-- The world coordinate of pixel index `k`:
`(k / (resolution - 1) - 0.5) * size`. -/
def pixelCoord (res k : ℕ) (size : ℚ) : ℚ :=
  ((k : ℚ) / ((res : ℚ) - 1) - 1 / 2) * size

/-- The world-space target point of pixel `(iy, ix)` on the receiving plane. -/
def pixelTarget (res iy ix : ℕ) (size plane_z : ℚ) : Vec3 :=
  ⟨pixelCoord res ix size, pixelCoord res iy size, plane_z⟩

/-- The light-to-target distance of a pixel (`np.linalg.norm`, i.e. the
floating-point square root of the squared norm). -/
def pixelDist (fsqrt : ℚ → ℚ) (light : Vec3) (plane_z size : ℚ)
    (res iy ix : ℕ) : ℚ :=
  fsqrt (dot (vsub (pixelTarget res iy ix size plane_z) light)
             (vsub (pixelTarget res iy ix size plane_z) light))

/-- The normalised light-to-target ray direction of a pixel. -/
def pixelDir (fsqrt : ℚ → ℚ) (light : Vec3) (plane_z size : ℚ)
    (res iy ix : ℕ) : Vec3 :=
  vdiv (vsub (pixelTarget res iy ix size plane_z) light)
    (pixelDist fsqrt light plane_z size res iy ix)

/-- One pixel of the shadow raster: world target on the plane, ray from the
light, normalised by the light-to-target distance, any-hit scan with early
exit (`List.any` short-circuits exactly like the `for`/`break`). -/
def shadowPixel (fsqrt : ℚ → ℚ) (tris : List Face) (light : Vec3)
    (plane_z size : ℚ) (res iy ix : ℕ) : ℕ :=
  let target : Vec3 := pixelTarget res iy ix size plane_z
  let d0 := vsub target light
  let dist := fsqrt (dot d0 d0)
  let dir := vdiv d0 dist
  if tris.any (fun tri => ltDist (ray_triangle_intersect light dir tri) dist)
  then 0 else 255

/-- `make_shadow_image` from `raytrace_verify.py`, as the `res × res` grid
of 8-bit pixel values (255 background, 0 occluded).  With `res = 1` the
coordinate computation `iy / (resolution - 1)` divides by zero on the first
row, raising `ZeroDivisionError`; `np.linalg.norm` is `fsqrt` of the
squared norm. -/
def make_shadow_image (fsqrt : ℚ → ℚ) (tris : List Face) (light : Vec3)
    (plane_z size : ℚ) (res : ℕ) : Except GenError (List (List ℕ)) :=
  mapExc (fun iy =>
    if res = 1 then .error .divByZero
    else
      mapExc (fun ix =>
        .ok (shadowPixel fsqrt tris light plane_z size res iy ix))
        (List.range res))
    (List.range res)

/-- An included cell certifies `hole_radius ≤ outer_radius`. -/
theorem cellIncluded_true_imp {hole outer r2 : ℚ}
    (h : cellIncluded hole outer r2 = true) : hole ≤ outer := by
  simp only [cellIncluded, Bool.and_eq_true, Bool.or_eq_true, decide_eq_true_eq] at h
  obtain ⟨h1, h2, h3⟩ := h
  rcases h1 with h1 | h1
  · linarith
  · nlinarith

/-- A loop whose every step leaves the accumulator unchanged returns it. -/
theorem genLoop_skip (step : (List Face × ℕ) → (ℕ × ℕ) → Except GenError (List Face × ℕ))
    (l : List (ℕ × ℕ)) (h : ∀ acc ij, ij ∈ l → step acc ij = .ok acc) :
    ∀ acc, genLoop step l acc = .ok acc := by
  induction l with
  | nil => intro acc; rfl
  | cons ij rest ih =>
      intro acc
      simp only [genLoop, h acc ij (List.mem_cons_self ij rest)]
      exact ih (fun acc ij' hij' => h acc ij' (List.mem_cons_of_mem _ hij')) acc

/-- C3: with `hole_radius > outer_radius` (and any positive resolution) the
generator includes no cell, accumulates exactly 0 triangles, and writes a
file whose count field is 0 and whose total size is exactly 84 bytes
(80-byte header + 4-byte count), raising no error. -/
theorem empty_annulus_mesh_spec (fsqrt fcos fsin : ℚ → ℚ) (pi_ : ℚ)
    (rng : ℕ → Fin 3) (pix : ℕ → ℕ → ℕ) (cfg : GenCfg)
    (hres : 0 < cfg.resolution) (hr : cfg.outer_radius < cfg.hole_radius) :
    (∀ ij, genIncluded cfg ij = false) ∧
    genFaces fcos fsin pi_ rng pix cfg = .ok [] ∧
    image_to_shadow_disk fsqrt fcos fsin pi_ rng pix cfg =
      .ok (stlHeader ++ [0, 0, 0, 0]) ∧
    (stlHeader ++ [0, 0, 0, 0]).length = 84 ∧
    (stlHeader ++ [0, 0, 0, 0]).drop 80 = [0, 0, 0, 0] := by
  have hfalse : ∀ r2 : ℚ, cellIncluded cfg.hole_radius cfg.outer_radius r2 = false := by
    intro r2
    cases hb : cellIncluded cfg.hole_radius cfg.outer_radius r2 with
    | false => rfl
    | true => exact absurd (cellIncluded_true_imp hb) (not_le.mpr hr)
  have hstep : ∀ acc ij, ij ∈ gridIndices cfg.resolution →
      genStep fcos fsin pi_ rng pix cfg acc ij = .ok acc := by
    intro acc ij _
    simp only [genStep, genIncluded, hfalse, Bool.false_eq_true, if_false]
  have hloop := genLoop_skip (genStep fcos fsin pi_ rng pix cfg)
    (gridIndices cfg.resolution) hstep ([], 0)
  have hgf : genFaces fcos fsin pi_ rng pix cfg = .ok [] := by
    simp only [genFaces, hloop]
  refine ⟨fun ij => by simp only [genIncluded, hfalse], hgf, ?_, rfl, rfl⟩
  simp only [image_to_shadow_disk, if_neg (by omega : ¬cfg.resolution = 0), hgf]
  rfl

/-- The rational annulus test agrees with the real-valued distance
condition `hole ≤ √(dx² + dy²) ≤ outer`. -/
theorem cellIncluded_iff_dist (hole outer dx dy : ℚ) :
    (cellIncluded hole outer (dx ^ 2 + dy ^ 2) = true ↔
      ((hole : ℝ) ≤ Real.sqrt ((dx ^ 2 + dy ^ 2 : ℚ) : ℝ) ∧
       Real.sqrt ((dx ^ 2 + dy ^ 2 : ℚ) : ℝ) ≤ (outer : ℝ))) := by
  have hS : (0 : ℚ) ≤ dx ^ 2 + dy ^ 2 := by positivity
  have hSR : (0 : ℝ) ≤ ((dx ^ 2 + dy ^ 2 : ℚ) : ℝ) := by exact_mod_cast hS
  simp only [cellIncluded, Bool.and_eq_true, Bool.or_eq_true, decide_eq_true_eq]
  constructor
  · rintro ⟨h1, h2, h3⟩
    constructor
    · rcases h1 with h1 | h1
      · calc (hole : ℝ) ≤ 0 := by exact_mod_cast h1
          _ ≤ Real.sqrt _ := Real.sqrt_nonneg _
      · by_cases hh : hole ≤ 0
        · calc (hole : ℝ) ≤ 0 := by exact_mod_cast hh
            _ ≤ Real.sqrt _ := Real.sqrt_nonneg _
        · push_neg at hh
          have h1' : ((hole : ℝ)) ^ 2 ≤ ((dx ^ 2 + dy ^ 2 : ℚ) : ℝ) := by exact_mod_cast h1
          calc (hole : ℝ) = Real.sqrt (((hole : ℝ)) ^ 2) := by
                rw [Real.sqrt_sq (by exact_mod_cast hh.le)]
            _ ≤ Real.sqrt _ := Real.sqrt_le_sqrt h1'
    · have h3' : ((dx ^ 2 + dy ^ 2 : ℚ) : ℝ) ≤ ((outer : ℝ)) ^ 2 := by exact_mod_cast h3
      have h2' : (0 : ℝ) ≤ (outer : ℝ) := by exact_mod_cast h2
      calc Real.sqrt ((dx ^ 2 + dy ^ 2 : ℚ) : ℝ) ≤ Real.sqrt (((outer : ℝ)) ^ 2) :=
            Real.sqrt_le_sqrt h3'
        _ = (outer : ℝ) := Real.sqrt_sq h2'
  · rintro ⟨h1, h2⟩
    have h2' : (0 : ℝ) ≤ (outer : ℝ) := le_trans (Real.sqrt_nonneg _) h2
    have hS_le : ((dx ^ 2 + dy ^ 2 : ℚ) : ℝ) ≤ ((outer : ℝ)) ^ 2 := by
      calc ((dx ^ 2 + dy ^ 2 : ℚ) : ℝ) = (Real.sqrt ((dx ^ 2 + dy ^ 2 : ℚ) : ℝ)) ^ 2 :=
            (Real.sq_sqrt hSR).symm
        _ ≤ ((outer : ℝ)) ^ 2 := pow_le_pow_left (Real.sqrt_nonneg _) h2 2
    refine ⟨?_, by exact_mod_cast h2', by exact_mod_cast hS_le⟩
    by_cases hh : hole ≤ 0
    · exact Or.inl hh
    · right
      push_neg at hh
      have h1' : ((hole : ℝ)) ^ 2 ≤ ((dx ^ 2 + dy ^ 2 : ℚ) : ℝ) := by
        calc ((hole : ℝ)) ^ 2 ≤ (Real.sqrt ((dx ^ 2 + dy ^ 2 : ℚ) : ℝ)) ^ 2 :=
              pow_le_pow_left (by exact_mod_cast hh.le) h1 2
          _ = ((dx ^ 2 + dy ^ 2 : ℚ) : ℝ) := Real.sq_sqrt hSR
      exact_mod_cast h1'

/-- C5: a grid cell of the annulus generator is included iff
`hole_radius ≤ d ≤ outer_radius` where `d` is the (real) distance from the
grid centre to the cell's lower-left corner offset by half the cell size;
and the height of an included cell is
`base_thickness + ((255 − luminance)/255) · max_relief` with `luminance`
the cell's source pixel value in 0–255. -/
theorem cell_inclusion_height_spec (hole outer base relief : ℚ) (res : ℕ)
    (pix : ℕ → ℕ → ℕ) (i j : ℕ) (hi : i < res) (hj : j < res)
    (hpix : pix j i ≤ 255) :
    (cellIncluded hole outer
        (cellR2 (2 * outer / (res : ℚ)) ((i : ℚ) * (2 * outer / (res : ℚ)) - outer)
          ((j : ℚ) * (2 * outer / (res : ℚ)) - outer)) = true ↔
      ((hole : ℝ) ≤ Real.sqrt ((cellR2 (2 * outer / (res : ℚ))
          ((i : ℚ) * (2 * outer / (res : ℚ)) - outer)
          ((j : ℚ) * (2 * outer / (res : ℚ)) - outer) : ℚ) : ℝ) ∧
       Real.sqrt ((cellR2 (2 * outer / (res : ℚ))
          ((i : ℚ) * (2 * outer / (res : ℚ)) - outer)
          ((j : ℚ) * (2 * outer / (res : ℚ)) - outer) : ℚ) : ℝ) ≤ (outer : ℝ))) ∧
    cellHeight pix base relief i j =
      base + (255 - (pix j i : ℚ)) / 255 * relief := by
  constructor
  · exact cellIncluded_iff_dist hole outer
      (((i : ℚ) * (2 * outer / (res : ℚ)) - outer) + (2 * outer / (res : ℚ)) / 2)
      (((j : ℚ) * (2 * outer / (res : ℚ)) - outer) + (2 * outer / (res : ℚ)) / 2)
  · unfold cellHeight
    rw [Nat.cast_sub hpix]
    norm_num

/-- `ltDist` holds exactly when the intersector returned a finite distance
strictly below the bound (`math.inf < d` is false). -/
theorem ltDist_iff (o : Option ℚ) (d : ℚ) :
    ltDist o d = true ↔ ∃ t : ℚ, o = some t ∧ t < d := by
  cases o with
  | none => simp [ltDist]
  | some t => simp [ltDist]

/-- A `mapExc` whose every step succeeds is the plain map. -/
theorem mapExc_ok {α β : Type} (f : α → Except GenError β) (g : α → β)
    (l : List α) (h : ∀ a ∈ l, f a = .ok (g a)) : mapExc f l = .ok (l.map g) := by
  induction l with
  | nil => rfl
  | cons a rest ih =>
      simp only [mapExc, h a (List.mem_cons_self a rest),
        ih (fun a' ha' => h a' (List.mem_cons_of_mem _ ha')), List.map_cons]

/-- Indexing a row/raster built by mapping over `List.range`. -/
theorem getD_map_range {β : Type} (res k : ℕ) (hk : k < res) (g : ℕ → β) (d : β) :
    (((List.range res).map g).getD k d) = g k := by
  rw [List.getD_eq_getElem?_getD, List.getElem?_map, List.getElem?_range hk]
  rfl

/-- The per-pixel characterisation of the shadow raster value. -/
theorem shadowPixel_spec (fsqrt : ℚ → ℚ) (tris : List Face) (light : Vec3)
    (plane_z size : ℚ) (res iy ix : ℕ) :
    (shadowPixel fsqrt tris light plane_z size res iy ix = 0 ∨
     shadowPixel fsqrt tris light plane_z size res iy ix = 255) ∧
    (shadowPixel fsqrt tris light plane_z size res iy ix = 0 ↔
      ∃ tri ∈ tris, ∃ t : ℚ,
        ray_triangle_intersect light (pixelDir fsqrt light plane_z size res iy ix) tri
          = some t ∧ t < pixelDist fsqrt light plane_z size res iy ix) := by
  by_cases hany : tris.any (fun tri =>
      ltDist (ray_triangle_intersect light (pixelDir fsqrt light plane_z size res iy ix) tri)
        (pixelDist fsqrt light plane_z size res iy ix)) = true
  · have hp : shadowPixel fsqrt tris light plane_z size res iy ix = 0 := by
      show (if (tris.any fun tri =>
          ltDist (ray_triangle_intersect light (pixelDir fsqrt light plane_z size res iy ix) tri)
            (pixelDist fsqrt light plane_z size res iy ix)) = true then 0 else 255) = 0
      rw [if_pos hany]
    rw [hp]
    refine ⟨Or.inl rfl, ?_⟩
    simp only [true_iff]
    obtain ⟨tri, htri, hlt⟩ := List.any_eq_true.mp hany
    obtain ⟨t, ht, htd⟩ := (ltDist_iff _ _).mp hlt
    exact ⟨tri, htri, t, ht, htd⟩
  · have hp : shadowPixel fsqrt tris light plane_z size res iy ix = 255 := by
      show (if (tris.any fun tri =>
          ltDist (ray_triangle_intersect light (pixelDir fsqrt light plane_z size res iy ix) tri)
            (pixelDist fsqrt light plane_z size res iy ix)) = true then 0 else 255) = 255
      rw [if_neg hany]
    rw [hp]
    refine ⟨Or.inr rfl, ?_⟩
    constructor
    · intro h0
      exact absurd h0 (by norm_num)
    · rintro ⟨tri, htri, t, ht, htd⟩
      exact absurd (List.any_eq_true.mpr
        ⟨tri, htri, (ltDist_iff _ _).mpr ⟨t, ht, htd⟩⟩) hany

/-- C7: for resolution ≥ 2 the shadow synthesizer produces a `res × res`
raster in which a pixel is 0 iff some triangle's intersection distance
along the normalised light-to-target ray is strictly less than the
light-to-target distance, and 255 otherwise. -/
theorem shadow_image_occlusion_spec (fsqrt : ℚ → ℚ) (tris : List Face)
    (light : Vec3) (plane_z size : ℚ) (res : ℕ) (hres : 2 ≤ res) :
    ∃ img, make_shadow_image fsqrt tris light plane_z size res = .ok img ∧
      img.length = res ∧ (∀ row ∈ img, row.length = res) ∧
      ∀ iy ix, iy < res → ix < res →
        ((img.getD iy []).getD ix 7 = 0 ∨ (img.getD iy []).getD ix 7 = 255) ∧
        ((img.getD iy []).getD ix 7 = 0 ↔
          ∃ tri ∈ tris, ∃ t : ℚ,
            ray_triangle_intersect light (pixelDir fsqrt light plane_z size res iy ix) tri
              = some t ∧ t < pixelDist fsqrt light plane_z size res iy ix) := by
  have hres1 : res ≠ 1 := by omega
  have himg : make_shadow_image fsqrt tris light plane_z size res =
      .ok ((List.range res).map (fun iy =>
        (List.range res).map (fun ix => shadowPixel fsqrt tris light plane_z size res iy ix))) := by
    rw [make_shadow_image]
    apply mapExc_ok
    intro iy _
    rw [if_neg hres1]
    apply mapExc_ok
    intro ix _
    rfl
  refine ⟨_, himg, by simp, ?_, ?_⟩
  · intro row hrow
    obtain ⟨iy, _, rfl⟩ := List.mem_map.mp hrow
    simp
  · intro iy ix hiy hix
    rw [getD_map_range res iy hiy, getD_map_range res ix hix]
    exact shadowPixel_spec fsqrt tris light plane_z size res iy ix

/-- C10: with resolution 1 the shadow synthesizer divides by
`resolution − 1 = 0` while computing the first pixel coordinate and raises
`ZeroDivisionError` instead of producing a raster. -/
theorem resolution_one_div_by_zero_spec (fsqrt : ℚ → ℚ) (tris : List Face)
    (light : Vec3) (plane_z size : ℚ) :
    make_shadow_image fsqrt tris light plane_z size 1 = .error .divByZero := rfl

/-- C9: with a fixed input grid and any non-mixed shape selector, the
generator's output bytes are a deterministic function of the inputs — two
runs with different random streams produce byte-identical files.  Only
mixed mode consumes the random stream. -/
theorem nonmixed_deterministic_spec (fsqrt fcos fsin : ℚ → ℚ) (pi_ : ℚ)
    (pix : ℕ → ℕ → ℕ) (cfg : GenCfg) (h : cfg.shape ≠ "mixed")
    (rng₁ rng₂ : ℕ → Fin 3) :
    image_to_shadow_disk fsqrt fcos fsin pi_ rng₁ pix cfg =
      image_to_shadow_disk fsqrt fcos fsin pi_ rng₂ pix cfg := by
  have hstep : genStep fcos fsin pi_ rng₁ pix cfg = genStep fcos fsin pi_ rng₂ pix cfg := by
    funext acc ij
    simp only [genStep, if_neg h]
  simp only [image_to_shadow_disk, genFaces, hstep]

/-- C8 counterexample: an unrecognized shape selector does NOT always fail
fast.  With `hole_radius > outer_radius` no cell is included, the unknown
selector `"sphere"` is never examined, no error is raised, and an empty
84-byte mesh file is written. -/
theorem unknown_shape_counterexample :
    image_to_shadow_disk (fun _ => 1) (fun _ => 1) (fun _ => 1) 3
      (fun _ => (0 : Fin 3)) (fun _ _ => 0)
      ⟨1, 2, 1, 5, 1, "sphere"⟩ = .ok (stlHeader ++ [0, 0, 0, 0]) := by
  have hfalse : ∀ ij, genIncluded ⟨1, 2, 1, 5, 1, "sphere"⟩ ij = false := by
    intro ij
    cases hb : genIncluded ⟨1, 2, 1, 5, 1, "sphere"⟩ ij with
    | false => rfl
    | true =>
        have := cellIncluded_true_imp hb
        norm_num at this
  have hstep : ∀ acc ij, ij ∈ gridIndices 1 →
      genStep (fun _ => 1) (fun _ => 1) 3 (fun _ => (0 : Fin 3)) (fun _ _ => 0)
        ⟨1, 2, 1, 5, 1, "sphere"⟩ acc ij = .ok acc := by
    intro acc ij _
    simp only [genStep, hfalse, Bool.false_eq_true, if_false]
  have hloop := genLoop_skip _ (gridIndices 1) hstep ([], 0)
  simp only [image_to_shadow_disk, genFaces, hloop]
  rfl

/-- C8 (amended): with an unrecognized shape selector and positive
resolution, the generator raises the unknown-shape `ValueError` if and
only if at least one grid cell passes the annulus inclusion test; when no
cell is included the unknown selector is never examined and the run
completes without error, writing the empty 84-byte mesh (80-byte header
plus zero count). -/
theorem unknown_shape_error_spec (fsqrt fcos fsin : ℚ → ℚ) (pi_ : ℚ)
    (rng : ℕ → Fin 3) (pix : ℕ → ℕ → ℕ) (cfg : GenCfg)
    (hshape : cfg.shape ∉ (["cube", "cylinder", "pyramid", "mixed"] : List String))
    (hres : 0 < cfg.resolution) :
    (image_to_shadow_disk fsqrt fcos fsin pi_ rng pix cfg =
        .error (.unknownShape cfg.shape) ↔
      ∃ ij ∈ gridIndices cfg.resolution, genIncluded cfg ij = true) ∧
    ((∀ ij ∈ gridIndices cfg.resolution, genIncluded cfg ij = false) →
      image_to_shadow_disk fsqrt fcos fsin pi_ rng pix cfg =
        .ok (stlHeader ++ [0, 0, 0, 0]) ∧
      (stlHeader ++ [0, 0, 0, 0]).length = 84) := by
  simp only [List.mem_cons, List.not_mem_nil, or_false, not_or] at hshape
  obtain ⟨hcube, hcyl, hpyr, hmix⟩ := hshape
  have hstep_err : ∀ acc ij, genIncluded cfg ij = true →
      genStep fcos fsin pi_ rng pix cfg acc ij = .error (.unknownShape cfg.shape) := by
    intro acc ij hinc
    simp only [genStep]
    rw [if_pos hinc, if_neg hmix, genCellFaces]
    rw [if_neg hcube, if_neg hcyl, if_neg hpyr]
  have hstep_skip : ∀ acc ij, ¬genIncluded cfg ij = true →
      genStep fcos fsin pi_ rng pix cfg acc ij = .ok acc := by
    intro acc ij hinc
    simp only [genStep]
    rw [if_neg hinc]
  have hloop : ∀ (l : List (ℕ × ℕ)) acc,
      (∃ ij ∈ l, genIncluded cfg ij = true) →
      genLoop (genStep fcos fsin pi_ rng pix cfg) l acc =
        .error (.unknownShape cfg.shape) := by
    intro l
    induction l with
    | nil =>
        rintro acc ⟨ij, hij, _⟩
        exact absurd hij (List.not_mem_nil _)
    | cons a rest ih =>
        rintro acc ⟨ij, hij, hinc⟩
        by_cases hincA : genIncluded cfg a = true
        · simp only [genLoop, hstep_err acc a hincA]
        · simp only [genLoop, hstep_skip acc a hincA]
          rcases List.mem_cons.mp hij with rfl | hij'
          · exact absurd hinc hincA
          · exact ih acc ⟨ij, hij', hinc⟩
  have hok : (∀ ij ∈ gridIndices cfg.resolution, genIncluded cfg ij = false) →
      image_to_shadow_disk fsqrt fcos fsin pi_ rng pix cfg =
        .ok (stlHeader ++ [0, 0, 0, 0]) := by
    intro hall
    have hstep : ∀ acc ij, ij ∈ gridIndices cfg.resolution →
        genStep fcos fsin pi_ rng pix cfg acc ij = .ok acc := by
      intro acc ij hij
      simp only [genStep, hall ij hij, Bool.false_eq_true, if_false]
    have hloop0 := genLoop_skip (genStep fcos fsin pi_ rng pix cfg)
      (gridIndices cfg.resolution) hstep ([], 0)
    simp only [image_to_shadow_disk, if_neg (by omega : ¬cfg.resolution = 0),
      genFaces, hloop0]
    rfl
  refine ⟨⟨?_, ?_⟩, fun hall => ⟨hok hall, rfl⟩⟩
  · intro herr
    by_contra hno
    push_neg at hno
    simp only [Bool.not_eq_true] at hno
    rw [hok hno] at herr
    exact Except.noConfusion herr
  · intro hcell
    have hgl := hloop (gridIndices cfg.resolution) ([], 0) hcell
    simp only [image_to_shadow_disk, if_neg (by omega : ¬cfg.resolution = 0),
      genFaces, hgl]

/-- Witness for `stl_write_read_round_trip`: a concrete one-triangle mesh
(the degenerate all-zero triangle) written and read back. -/
theorem stl_write_read_round_trip_witness :
    ∃ bs, write_binary_stl (fun _ => 0)
        [((⟨0, 0, 0⟩ : Vec3), (⟨0, 0, 0⟩ : Vec3), (⟨0, 0, 0⟩ : Vec3))] = .ok bs ∧
      ∃ ts', load_binary_stl bs = some ts' ∧ ts'.length = 1 ∧
        List.Forall₂ faceTol
          [((⟨0, 0, 0⟩ : Vec3), (⟨0, 0, 0⟩ : Vec3), (⟨0, 0, 0⟩ : Vec3))] ts' := by
  have h0 : roundF32 (0 : ℚ) = some 0 := by rw [roundF32, if_pos rfl]
  have hff : faceFloats (fun _ => 0)
      ((⟨0, 0, 0⟩ : Vec3), (⟨0, 0, 0⟩ : Vec3), (⟨0, 0, 0⟩ : Vec3)) =
      [0, 0, 0, 0, 0, 0, 0, 0, 0, 0, 0, 0] := by
    simp only [faceFloats, _normal, vdiv, cross, vsub]
    norm_num
  have hm : mapOpt roundF32 ([0, 0, 0, 0, 0, 0, 0, 0, 0, 0, 0, 0] : List ℚ) =
      some [0, 0, 0, 0, 0, 0, 0, 0, 0, 0, 0, 0] := by
    simp only [mapOpt, h0]
  have hpack : packFace (fun _ => 0)
      ((⟨0, 0, 0⟩ : Vec3), (⟨0, 0, 0⟩ : Vec3), (⟨0, 0, 0⟩ : Vec3)) =
      some (List.replicate 50 0) := by
    rw [packFace, hff, hm]
    decide
  have hwmap : mapOpt (packFace (fun _ => 0))
      [((⟨0, 0, 0⟩ : Vec3), (⟨0, 0, 0⟩ : Vec3), (⟨0, 0, 0⟩ : Vec3))] =
      some [List.replicate 50 0] := by
    simp only [mapOpt, hpack]
  have hwrite : write_binary_stl (fun _ => 0)
      [((⟨0, 0, 0⟩ : Vec3), (⟨0, 0, 0⟩ : Vec3), (⟨0, 0, 0⟩ : Vec3))] =
      .ok (stlHeader ++ natToBytesLE4 1 ++ [List.replicate 50 0].flatten) := by
    rw [write_binary_stl, if_neg (by decide), hwmap]
    rfl
  obtain ⟨ts', h1, h2, h3⟩ := stl_write_read_round_trip (fun _ => 0) _ _ hwrite
  exact ⟨_, hwrite, ts', h1, by simpa using h2, h3⟩

/-- Witness for `empty_annulus_mesh_spec` at a concrete configuration with
`hole_radius = 2 > 1 = outer_radius`. -/
theorem empty_annulus_mesh_spec_witness :
    (0 < (1 : ℕ)) ∧ ((1 : ℚ) < 2) ∧
    image_to_shadow_disk (fun _ => 1) (fun _ => 1) (fun _ => 1) 3
      (fun _ => (0 : Fin 3)) (fun _ _ => 0) ⟨1, 2, 1, 5, 1, "cube"⟩ =
      .ok (stlHeader ++ [0, 0, 0, 0]) :=
  ⟨by decide, by norm_num,
   (empty_annulus_mesh_spec (fun _ => 1) (fun _ => 1) (fun _ => 1) 3
     (fun _ => (0 : Fin 3)) (fun _ _ => 0) ⟨1, 2, 1, 5, 1, "cube"⟩
     (by decide) (by norm_num)).2.2.1⟩

/-- Witness for `normal_unit_or_zero_spec`: the right triangle with unit
legs has cross-product norm 1, and with an exact square root the computed
normal has magnitude exactly 1. -/
theorem normal_unit_or_zero_spec_witness :
    crossNormSq ⟨0, 0, 0⟩ ⟨1, 0, 0⟩ ⟨0, 1, 0⟩ ≠ 0 ∧
    |Real.sqrt ((((_normal (fun _ => 1) ⟨0, 0, 0⟩ ⟨1, 0, 0⟩ ⟨0, 1, 0⟩).x ^ 2 +
        (_normal (fun _ => 1) ⟨0, 0, 0⟩ ⟨1, 0, 0⟩ ⟨0, 1, 0⟩).y ^ 2 +
        (_normal (fun _ => 1) ⟨0, 0, 0⟩ ⟨1, 0, 0⟩ ⟨0, 1, 0⟩).z ^ 2 : ℚ) : ℝ)) - 1|
      ≤ 1 / 100000 := by
  have h1 : crossNormSq ⟨0, 0, 0⟩ ⟨1, 0, 0⟩ ⟨0, 1, 0⟩ = 1 := by
    norm_num [crossNormSq, dot, cross, vsub]
  have hacc : |(((fun _ => (1 : ℚ)) (crossNormSq ⟨0, 0, 0⟩ ⟨1, 0, 0⟩ ⟨0, 1, 0⟩) : ℚ) : ℝ) -
      Real.sqrt ((crossNormSq ⟨0, 0, 0⟩ ⟨1, 0, 0⟩ ⟨0, 1, 0⟩ : ℚ) : ℝ)| ≤
      Real.sqrt ((crossNormSq ⟨0, 0, 0⟩ ⟨1, 0, 0⟩ ⟨0, 1, 0⟩ : ℚ) : ℝ) / 2 ^ 53 := by
    rw [h1]
    norm_num [Real.sqrt_one]
  exact ⟨by rw [h1]; norm_num,
    (normal_unit_or_zero_spec (fun _ => 1) ⟨0, 0, 0⟩ ⟨1, 0, 0⟩ ⟨0, 1, 0⟩ hacc).1
      (by rw [h1]; norm_num)⟩

/-- Witness for `cell_inclusion_height_spec` at a concrete 1×1 grid with
luminance 7. -/
theorem cell_inclusion_height_spec_witness :
    ((0 : ℕ) < 1 ∧ (7 : ℕ) ≤ 255) ∧
    cellHeight (fun _ _ => 7) 1 5 0 0 = 1 + (255 - ((7 : ℕ) : ℚ)) / 255 * 5 :=
  ⟨⟨by decide, by decide⟩,
   (cell_inclusion_height_spec 0 1 1 5 1 (fun _ _ => 7) 0 0
     (by decide) (by decide) (by decide)).2⟩

/-- Witness for `shadow_image_occlusion_spec` at resolution 2 with an empty
mesh. -/
theorem shadow_image_occlusion_spec_witness :
    (2 : ℕ) ≤ 2 ∧ ∃ img, make_shadow_image (fun _ => 1) [] ⟨0, 0, 0⟩ 100 100 2 = .ok img ∧
      img.length = 2 := by
  refine ⟨by decide, ?_⟩
  obtain ⟨img, h1, h2, _, _⟩ :=
    shadow_image_occlusion_spec (fun _ => 1) [] ⟨0, 0, 0⟩ 100 100 2 (by decide)
  exact ⟨img, h1, h2⟩

/-- Witness for `unknown_shape_error_spec`: selector `"sphere"` with an
included cell (hole 0, outer 50) raises the unknown-shape error, via the
reverse direction of the proved equivalence. -/
theorem unknown_shape_error_spec_witness :
    (("sphere" : String) ∉ (["cube", "cylinder", "pyramid", "mixed"] : List String)) ∧
    (0 < (1 : ℕ)) ∧
    (∃ ij ∈ gridIndices 1, genIncluded ⟨50, 0, 1, 5, 1, "sphere"⟩ ij = true) ∧
    image_to_shadow_disk (fun _ => 1) (fun _ => 1) (fun _ => 1) 3
      (fun _ => (0 : Fin 3)) (fun _ _ => 0) ⟨50, 0, 1, 5, 1, "sphere"⟩ =
      .error (.unknownShape "sphere") := by
  have hcell : ∃ ij ∈ gridIndices 1, genIncluded ⟨50, 0, 1, 5, 1, "sphere"⟩ ij = true := by
    refine ⟨(0, 0), by decide, ?_⟩
    simp only [genIncluded, cellIncluded, cellR2, Bool.and_eq_true, Bool.or_eq_true,
      decide_eq_true_eq]
    norm_num
  exact ⟨by decide, by decide, hcell,
    (unknown_shape_error_spec (fun _ => 1) (fun _ => 1) (fun _ => 1) 3
      (fun _ => (0 : Fin 3)) (fun _ _ => 0) ⟨50, 0, 1, 5, 1, "sphere"⟩
      (by decide) (by decide)).1.mpr hcell⟩

/-- Witness for `nonmixed_deterministic_spec`: shape `"cube"` with two
different random streams produces identical files. -/
theorem nonmixed_deterministic_spec_witness :
    (("cube" : String) ≠ "mixed") ∧
    image_to_shadow_disk (fun _ => 1) (fun _ => 1) (fun _ => 1) 3
      (fun _ => (0 : Fin 3)) (fun _ _ => 0) ⟨50, 0, 1, 5, 1, "cube"⟩ =
    image_to_shadow_disk (fun _ => 1) (fun _ => 1) (fun _ => 1) 3
      (fun _ => (1 : Fin 3)) (fun _ _ => 0) ⟨50, 0, 1, 5, 1, "cube"⟩ :=
  ⟨by decide,
   nonmixed_deterministic_spec (fun _ => 1) (fun _ => 1) (fun _ => 1) 3
     (fun _ _ => 0) ⟨50, 0, 1, 5, 1, "cube"⟩ (by decide)
     (fun _ => (0 : Fin 3)) (fun _ => (1 : Fin 3))⟩
